import Mathlib

/-!
Verification development for the retail-dashboard data engine (`src/app.py`).

The Python source loads three CSV tables (households, transactions,
products), normalizes their column names, coerces the join keys
`HSHD_NUM` / `PRODUCT_NUM` to numeric (unparseable cells become the
missing marker `NaN`), joins the tables with pandas inner `merge`, and
computes aggregate views.  This file embeds those operations as Lean
definitions and proves (or refutes) the stated properties.

Modelling conventions:
* a numeric cell that may hold pandas `NaN` is `Option ℤ` (`none` = NaN);
* a string cell that may hold `NaN` is `Option String`;
* a pandas inner `merge` on a key column pairs every left row with every
  right row whose key is *equal*, where `NaN` equals `NaN` (pandas
  factorizes the key column and gives `NaN` its own code, so `NaN` keys
  match each other — unlike SQL);
* `merge` output order: for each left row in order, all matching right
  rows in right-table order;
* `SPEND` is modelled as `ℚ`.
-/

namespace Retail

/-- A household row: the `HSHD_NUM` key after numeric coercion
(`none` = the missing marker), plus an opaque payload standing for the
remaining demographic columns. -/
structure HouseRow where
  hshd : Option ℤ
  hrest : ℕ
  deriving DecidableEq

/-- A transaction row after the module-level normalization: coerced
`HSHD_NUM` and `PRODUCT_NUM` keys, raw `BASKET_NUM`, the raw `DATE`
string (renamed from `PURCHASE_` / `PURCHASE_DATE`), and a payload for
the remaining columns. -/
structure TxRow where
  hshd : Option ℤ
  basket : Option ℤ
  date : Option String
  pnum : Option ℤ
  trest : ℕ
  deriving DecidableEq

/-- A product row: coerced `PRODUCT_NUM` key, `DEPARTMENT` and
`COMMODITY` cells, and a payload for the remaining columns. -/
structure ProdRow where
  pnum : Option ℤ
  dept : Option String
  comm : Option String
  prest : ℕ
  deriving DecidableEq

/-- Pandas inner `merge` of two tables on one key column: each left row
is paired with every right row carrying an equal key, in left-major
order.  Equality is `Option ℤ` equality, so a `none` (NaN) key matches
exactly the `none` keys of the other side — pandas merges NaN with NaN. -/
def mergeOn {A B : Type} (ka : A → Option ℤ) (kb : B → Option ℤ)
    (l : List A) (r : List B) : List (A × B) :=
  l.flatMap fun a => (r.filter fun b => decide (ka a = kb b)).map fun b => (a, b)

/-- Line 68 of `app.py`: `df_tx.merge(df_house, on='HSHD_NUM')`. -/
def joinTxHouse (tx : List TxRow) (house : List HouseRow) : List (TxRow × HouseRow) :=
  mergeOn TxRow.hshd HouseRow.hshd tx house

/-- Line 69 of `app.py`: `.merge(df_prod, on='PRODUCT_NUM')` applied to
the transaction–household merge result. -/
def joinTHProd (th : List (TxRow × HouseRow)) (prod : List ProdRow) :
    List ((TxRow × HouseRow) × ProdRow) :=
  mergeOn (fun p => p.1.pnum) ProdRow.pnum th prod

/-- The dashboard-wide three-way join (lines 68–69). -/
def dashboardJoin (house : List HouseRow) (tx : List TxRow) (prod : List ProdRow) :
    List ((TxRow × HouseRow) × ProdRow) :=
  joinTHProd (joinTxHouse tx house) prod

/-- Line 153 of `app.py`: `df_house[df_house['HSHD_NUM']==h]`.  A NaN
key compares unequal to the integer `h`, so missing-key households are
dropped by the filter. -/
def houseFilter (h : ℤ) (house : List HouseRow) : List HouseRow :=
  house.filter fun hr => decide (hr.hshd = some h)

/-- Line 154 of `app.py`: `hh.merge(df_tx, on='HSHD_NUM')`. -/
def joinHouseTx (house : List HouseRow) (tx : List TxRow) : List (HouseRow × TxRow) :=
  mergeOn HouseRow.hshd TxRow.hshd house tx

/-- Line 155 of `app.py`: `.merge(df_prod, on='PRODUCT_NUM')` applied to
the household–transaction merge result. -/
def joinHTProd (ht : List (HouseRow × TxRow)) (prod : List ProdRow) :
    List ((HouseRow × TxRow) × ProdRow) :=
  mergeOn (fun p => p.2.pnum) ProdRow.pnum ht prod

/-- The single-household lookup join of the `search` route
(lines 153–155): filter the household table first, then join. -/
def searchJoin (h : ℤ) (house : List HouseRow) (tx : List TxRow) (prod : List ProdRow) :
    List ((HouseRow × TxRow) × ProdRow) :=
  joinHTProd (joinHouseTx (houseFilter h house) tx) prod

/-- Keeping only the rows of the full dashboard join whose (shared)
`HSHD_NUM` key equals `h`; a NaN key compares unequal to `h`. -/
def dashboardFilter (h : ℤ) (rows : List ((TxRow × HouseRow) × ProdRow)) :
    List ((TxRow × HouseRow) × ProdRow) :=
  rows.filter fun j => decide (j.1.1.hshd = some h)

/-- A row of the joined dashboard table as seen by the monthly-spend
view (line 70 has already run `pd.to_datetime(..., errors='coerce')`):
`date` is the parsed calendar date `(year, month, day)` or `none` for
an unparseable date (`NaT`), and `spend` is the row's `SPEND` value. -/
structure DRow where
  date : Option (ℤ × ℤ × ℤ)
  spend : ℚ
  deriving DecidableEq

/-- The month ordinal of a calendar date, as used by pandas
`dt.to_period('M')`: `12 * year + (month - 1)`.  Two dates fall in the
same group exactly when they share year and month, and the ordinal
order is chronological. -/
def toMonth (d : ℤ × ℤ × ℤ) : ℤ :=
  12 * d.1 + (d.2.1 - 1)

/-- The month-period key of a row: `none` when the date failed to parse
(`NaT`), in which case pandas `groupby` drops the row. -/
def rowMonth (r : DRow) : Option ℤ :=
  r.date.map toMonth

/-- The distinct month keys present among the parseable dates, in
ascending order — `groupby(..., sort=True)` sorts the group keys and
drops the `NaT` group. -/
def monthsOf (rows : List DRow) : List ℤ :=
  List.insertionSort (· ≤ ·) (rows.filterMap rowMonth).dedup

/-- Line 73 of `app.py`:
`merged.groupby(merged['DATE'].dt.to_period('M'))['SPEND'].sum()` —
for each month present among the parseable dates, in ascending order,
the total `SPEND` of the rows falling in that month. -/
def monthlySpend (rows : List DRow) : List (ℤ × ℚ) :=
  (monthsOf rows).map fun m =>
    (m, ((rows.filter fun r => decide (rowMonth r = some m)).map DRow.spend).sum)

/-- A possibly-missing cell viewed as a sort key: pandas `sort_values`
places `NaN` last (`na_position='last'`), which is the `WithTop` order
with `none` as the greatest element. -/
def optTop {α : Type} : Option α → WithTop α
  | some a => (a : WithTop α)
  | none => ⊤

/-- The lexicographic six-key sort domain of the `search` route:
`(HSHD_NUM, BASKET_NUM, DATE, PRODUCT_NUM, DEPARTMENT, COMMODITY)`. -/
abbrev SKey : Type :=
  WithTop ℤ ×ₗ (WithTop ℤ ×ₗ (WithTop String ×ₗ (WithTop ℤ ×ₗ
    (WithTop String ×ₗ WithTop String))))

/-- The six-column sort key of one joined record, in the column order of
line 156 of `app.py`. -/
def sortKey (j : (HouseRow × TxRow) × ProdRow) : SKey :=
  toLex (optTop j.1.1.hshd, toLex (optTop j.1.2.basket, toLex (optTop j.1.2.date,
    toLex (optTop j.1.2.pnum, toLex (optTop j.2.dept, optTop j.2.comm)))))

/-- The row ordering used by
`sort_values(['HSHD_NUM','BASKET_NUM','DATE','PRODUCT_NUM','DEPARTMENT','COMMODITY'])`:
lexicographic comparison of the six keys, ascending, `NaN` last. -/
def recLe (u v : (HouseRow × TxRow) × ProdRow) : Prop :=
  sortKey u ≤ sortKey v

instance : DecidableRel recLe :=
  fun u v => inferInstanceAs (Decidable (sortKey u ≤ sortKey v))

instance : IsTotal ((HouseRow × TxRow) × ProdRow) recLe :=
  ⟨fun u v => le_total (sortKey u) (sortKey v)⟩

instance : IsTrans ((HouseRow × TxRow) × ProdRow) recLe :=
  ⟨fun _ _ _ h1 h2 => le_trans h1 h2⟩

/-- Lines 153–156 of `app.py`: the single-household lookup — filter,
join, and sort by the six keys (pandas multi-key `sort_values` is a
stable lexicographic sort, as is insertion sort). -/
def searchLookup (h : ℤ) (house : List HouseRow) (tx : List TxRow) (prod : List ProdRow) :
    List ((HouseRow × TxRow) × ProdRow) :=
  List.insertionSort recLe (searchJoin h house tx prod)

/-- A row of the joined table as seen by the cross-sell view (line
118): the two basket-group keys and the `COMMODITY` value. -/
structure MRow where
  hshd : Option ℤ
  basket : Option ℤ
  comm : String
  deriving DecidableEq

/-- The `groupby(['HSHD_NUM','BASKET_NUM'])` key of a row: pandas drops
a row from the grouping when any key is `NaN`. -/
def rowKey (r : MRow) : Option (ℤ × ℤ) :=
  match r.hshd, r.basket with
  | some h, some b => some (h, b)
  | _, _ => none

/-- Lexicographic order on basket keys, the order in which `groupby`
(with its default `sort=True`) emits the groups. -/
def keyLe (k k' : ℤ × ℤ) : Prop :=
  k.1 < k'.1 ∨ (k.1 = k'.1 ∧ k.2 ≤ k'.2)

instance : DecidableRel keyLe :=
  fun a b => inferInstanceAs (Decidable (a.1 < b.1 ∨ (a.1 = b.1 ∧ a.2 ≤ b.2)))

/-- The distinct non-null basket keys of the table, in sorted group
order. -/
def groupKeys (rows : List MRow) : List (ℤ × ℤ) :=
  List.insertionSort keyLe (rows.filterMap rowKey).dedup

/-- The commodity list of one basket, in row order — the value of
`merged.groupby(['HSHD_NUM','BASKET_NUM'])['COMMODITY'].apply(list)`
at one group key. -/
def basketList (rows : List MRow) (k : ℤ × ℤ) : List String :=
  (rows.filter fun r => decide (rowKey r = some k)).map MRow.comm

/-- Line 118 of `app.py`: the per-basket commodity lists, one per
distinct basket, in group order. -/
def basketProducts (rows : List MRow) : List (List String) :=
  (groupKeys rows).map (basketList rows)

/-- All index pairs `i < j` of a list, as value pairs — the shape of the
double loop `for i in range(len(unique)): for j in range(i+1, ...)`. -/
def pairsOf {α : Type} : List α → List (α × α)
  | [] => []
  | x :: xs => (xs.map fun y => (x, y)) ++ pairsOf xs

/-- `tuple(sorted((u, v)))`: the canonical (sorted) form of a pair. -/
def sortPair (p : String × String) : String × String :=
  if p.1 ≤ p.2 then p else (p.2, p.1)

/-- Lines 122–126 of `app.py` for one basket: deduplicate the commodity
list (`list(set(items))`), then emit the canonical key of every
unordered pair of distinct positions. -/
def basketPairs (items : List String) : List (String × String) :=
  (pairsOf items.dedup).map sortPair

/-- Occurrence count of one value in a list (the multiplicity recorded
by a `Counter` after scanning the list). -/
def countKey {β : Type} [DecidableEq β] (k : β) (l : List β) : ℕ :=
  (l.filter fun x => decide (x = k)).length

/-- The final value of `pair_counter[k]` after the scan of all baskets:
the number of times the canonical key `k` was emitted. -/
def pairCount (baskets : List (List String)) (k : String × String) : ℕ :=
  countKey k ((baskets.map basketPairs).flatten)

/-- `pair_counter[pair] += 1` on an insertion-ordered association list,
the model of a Python `Counter` (a dict preserving insertion order): an
existing entry is incremented in place, a new key is appended at the
end. -/
def bumpList (k : String × String) :
    List ((String × String) × ℕ) → List ((String × String) × ℕ)
  | [] => [(k, 1)]
  | e :: rest => if e.1 = k then (e.1, e.2 + 1) :: rest else e :: bumpList k rest

/-- Lines 120–126 of `app.py`: the `Counter` contents after scanning
every basket's emitted pair keys, as an insertion-ordered association
list from canonical pair to count. -/
def counterItems (baskets : List (List String)) : List ((String × String) × ℕ) :=
  ((baskets.map basketPairs).flatten).foldl (fun acc k => bumpList k acc) []

/-- Descending-count comparison used by `Counter.most_common`
(`sorted(..., key=count, reverse=True)`). -/
def cntDesc (p q : (String × String) × ℕ) : Prop :=
  q.2 ≤ p.2

instance : DecidableRel cntDesc :=
  fun p q => inferInstanceAs (Decidable (q.2 ≤ p.2))

instance : IsTotal ((String × String) × ℕ) cntDesc :=
  ⟨fun p q => le_total q.2 p.2⟩

instance : IsTrans ((String × String) × ℕ) cntDesc :=
  ⟨fun _ _ _ h1 h2 => le_trans h2 h1⟩

/-- `Counter.most_common(n)`: the first `n` entries of the counter items
stably sorted by descending count — per the Python documentation,
"elements with equal counts are ordered in the order first
encountered". -/
def mostCommon (n : ℕ) (items : List ((String × String) × ℕ)) :
    List ((String × String) × ℕ) :=
  (List.insertionSort cntDesc items).take n

/-- Line 127 of `app.py`: `pair_counter.most_common(5)`. -/
def topPairs (n : ℕ) (baskets : List (List String)) :
    List ((String × String) × ℕ) :=
  mostCommon n (counterItems baskets)

/-- Descending-count comparison on counted values, as used by
`value_counts()` (counts sorted descending). -/
def valDesc {α : Type} (p q : α × ℕ) : Prop :=
  q.2 ≤ p.2

instance {α : Type} : DecidableRel (valDesc (α := α)) :=
  fun p q => inferInstanceAs (Decidable (q.2 ≤ p.2))

instance {α : Type} : IsTotal (α × ℕ) valDesc :=
  ⟨fun p q => le_total q.2 p.2⟩

instance {α : Type} : IsTrans (α × ℕ) valDesc :=
  ⟨fun _ _ _ h1 h2 => le_trans h2 h1⟩

/-- Line 84 of `app.py`: `merged['BRAND_TYPE'].value_counts()` — the
occurrence count of each distinct present value of the column, missing
(`NaN`) cells dropped (`value_counts` defaults to `dropna=True`),
sorted by descending count. -/
def brandCounts (col : List (Option String)) : List (String × ℕ) :=
  List.insertionSort valDesc
    (((col.filterMap id).dedup).map fun v => (v, countKey v (col.filterMap id)))

/-- A cell of a raw loaded table: a number, a raw string, or the
missing marker `NaN`. -/
inductive CellV where
  | num (n : ℤ)
  | str (s : String)
  | nan
  deriving DecidableEq

/-- The numeric value of one decimal digit character. -/
def digitVal (c : Char) : Option ℕ :=
  if 48 ≤ c.toNat ∧ c.toNat ≤ 57 then some (c.toNat - 48) else none

/-- Parse a digit string left to right, accumulating its value. -/
def digitsVal : ℕ → List Char → Option ℕ
  | acc, [] => some acc
  | acc, c :: cs =>
    match digitVal c with
    | some d => digitsVal (acc * 10 + d) cs
    | none => none

/-- The numeric parsing performed by `pd.to_numeric` per cell,
abstracted to non-negative decimal integers: a non-empty all-digit
string parses, anything else does not. -/
def parseNum (s : String) : Option ℤ :=
  if s.data = [] then none else (digitsVal 0 s.data).map Int.ofNat

/-- `pd.to_numeric(cell, errors='coerce')`: numbers pass through,
parseable strings become numbers, everything else becomes `NaN`. -/
def toNumericCell : CellV → CellV
  | CellV.num n => CellV.num n
  | CellV.nan => CellV.nan
  | CellV.str s =>
    match parseNum s with
    | some n => CellV.num n
    | none => CellV.nan

/-- A loaded table for the mutation model: named columns with cells. -/
abbrev PTable : Type := List (String × List CellV)

/-- `df.rename` on a table value: every column named `a` is renamed to
`b`, cells untouched. -/
def renameTableCol (a b : String) (t : PTable) : PTable :=
  t.map fun col => if col.1 = a then (b, col.2) else col

/-- The success path of `df[c] = pd.to_numeric(df[c], errors='coerce')`
as a table value transformation: the cells of every column named `c`
are coerced (names and column order untouched). -/
def coerceNumeric (c : String) (t : PTable) : PTable :=
  t.map fun col => if col.1 = c then (col.1, col.2.map toNumericCell) else col

/-- The full statement `df[c] = pd.to_numeric(df[c], errors='coerce')`:
reading `df[c]` raises a `KeyError` when no column named `c` exists
(`errors='coerce'` only forgives unparseable cells, not a missing
column); otherwise the column is coerced in place. -/
def coerceNumericT (c : String) (t : PTable) : Except String PTable :=
  if c ∈ t.map Prod.fst then Except.ok (coerceNumeric c t)
  else Except.error "KeyError"

/-- Lines 34–39 on a table value: the date-alias resolution. -/
def resolveDateAliasT (t : PTable) : Except String PTable :=
  if "PURCHASE_" ∈ t.map Prod.fst then
    Except.ok (renameTableCol "PURCHASE_" "DATE" t)
  else if "PURCHASE_DATE" ∈ t.map Prod.fst then
    Except.ok (renameTableCol "PURCHASE_DATE" "DATE" t)
  else
    Except.error "no recognized date column"

/-- Lines 42–43 on a table value: the optional brand-alias rename. -/
def resolveBrandAliasT (t : PTable) : PTable :=
  if "BRAND_TY" ∈ t.map Prod.fst then renameTableCol "BRAND_TY" "BRAND_TYPE" t else t

/-- The module-level state: the three global table variables are
references (addresses) into a heap of table objects, so that in-place
mutation (pandas `inplace=True` / column assignment) is observable as a
change of the object at an unchanged address. -/
structure PState where
  houseAddr : ℕ
  txAddr : ℕ
  prodAddr : ℕ
  heap : ℕ → PTable

/-- Lines 34–49 of `app.py`: the module-level normalization block.
`df_tx.rename(..., inplace=True)` overwrites the object at `txAddr`
(it returns `None`, not a fresh table); `df_prod.rename(...,
inplace=True)` likewise; each `df[...] = pd.to_numeric(...)` column
assignment then mutates the table at its address in sequence, raising
`KeyError` if the addressed table has no such column. -/
def moduleNormalize (s : PState) : Except String PState :=
  (resolveDateAliasT (s.heap s.txAddr)).bind fun tx' =>
    let h1 := Function.update s.heap s.txAddr tx'
    let h2 := Function.update h1 s.prodAddr (resolveBrandAliasT (h1 s.prodAddr))
    (coerceNumericT "HSHD_NUM" (h2 s.houseAddr)).bind fun house' =>
      let h3 := Function.update h2 s.houseAddr house'
      (coerceNumericT "HSHD_NUM" (h3 s.txAddr)).bind fun tx2 =>
        let h4 := Function.update h3 s.txAddr tx2
        (coerceNumericT "PRODUCT_NUM" (h4 s.txAddr)).bind fun tx3 =>
          let h5 := Function.update h4 s.txAddr tx3
          (coerceNumericT "PRODUCT_NUM" (h5 s.prodAddr)).map fun prod' =>
            { s with heap := Function.update h5 s.prodAddr prod' }

/-- A concrete raw household table (carries `HSHD_NUM`, so the line-46
coercion succeeds on it). -/
def exHouse : PTable :=
  [("HSHD_NUM", [CellV.str "10"])]

/-- A concrete raw transaction table (carries the `PURCHASE_DATE` alias
plus both join-key columns, so lines 34–48 all succeed on it). -/
def exTable : PTable :=
  [("PURCHASE_DATE", [CellV.str "1"]), ("HSHD_NUM", [CellV.str "10"]),
    ("PRODUCT_NUM", [CellV.str "7"])]

/-- A concrete raw product table (carries `BRAND_TY` and
`PRODUCT_NUM`, so lines 42–43 and 49 succeed on it). -/
def exProd : PTable :=
  [("PRODUCT_NUM", [CellV.str "7"]), ("BRAND_TY", [CellV.str "X"])]

/-- A concrete initial state on which the whole module-level block runs
to completion: household table at address 0, transaction table at
address 1, product table at address 2. -/
def exState : PState :=
  ⟨0, 1, 2, fun a => if a = 0 then exHouse else if a = 1 then exTable
    else if a = 2 then exProd else []⟩

/-- Whitespace test used by Python's `str.strip`, restricted to the
ASCII whitespace characters (space, tab, LF, VT, FF, CR). -/
def isSp (c : Char) : Bool :=
  decide (c.toNat = 32 ∨ c.toNat = 9 ∨ c.toNat = 10 ∨ c.toNat = 11 ∨
    c.toNat = 12 ∨ c.toNat = 13)

/-- ASCII upper-casing of one character, as done per character by
`str.upper` on the ASCII range: a lowercase letter moves down by 32,
everything else is unchanged. -/
def upChar (c : Char) : Char :=
  if 97 ≤ c.toNat ∧ c.toNat ≤ 122 then Char.ofNat (c.toNat - 32) else c

/-- Remove leading whitespace. -/
def dropLeading (l : List Char) : List Char :=
  l.dropWhile isSp

/-- Remove trailing whitespace. -/
def dropTrailing (l : List Char) : List Char :=
  (l.reverse.dropWhile isSp).reverse

/-- Python `str.strip`: remove leading and trailing whitespace. -/
def stripChars (l : List Char) : List Char :=
  dropTrailing (dropLeading l)

/-- Line 23 of `app.py`, per column name:
`df.columns.str.strip().str.upper()`. -/
def stripUp (s : String) : String :=
  ⟨(stripChars s.data).map upChar⟩

/-- Renaming one column name: `df.rename` with a mapping from `a` to
`b` turns every column named `a` into `b` and leaves all other names
untouched (pandas renames by name, so duplicate occurrences are all
renamed). -/
def renameCol (a b : String) (c : String) : String :=
  if c = a then b else c

/-- Lines 34–39 of `app.py`: the transaction-table date-alias rule.  If
`PURCHASE_` is a column it is renamed to `DATE`; otherwise if
`PURCHASE_DATE` is a column it is renamed to `DATE`; otherwise the load
fails (`RuntimeError`). -/
def resolveDateAlias (cols : List String) : Except String (List String) :=
  if "PURCHASE_" ∈ cols then
    Except.ok (cols.map (renameCol "PURCHASE_" "DATE"))
  else if "PURCHASE_DATE" ∈ cols then
    Except.ok (cols.map (renameCol "PURCHASE_DATE" "DATE"))
  else
    Except.error "no recognized date column"

/-- Lines 42–43 of `app.py`: the product-table brand alias rule, which
is best-effort — no failure when `BRAND_TY` is absent. -/
def resolveBrandAlias (cols : List String) : List String :=
  if "BRAND_TY" ∈ cols then cols.map (renameCol "BRAND_TY" "BRAND_TYPE") else cols

/-- Full transaction-table schema normalization: trim/uppercase each
column name (from `load_csv`), then resolve the date alias. -/
def normalizeTx (cols : List String) : Except String (List String) :=
  resolveDateAlias (cols.map stripUp)

/-- Full product-table schema normalization: trim/uppercase, then the
optional brand-alias rename. -/
def normalizeProd (cols : List String) : List String :=
  resolveBrandAlias (cols.map stripUp)

/-- Full household-table schema normalization: trim/uppercase only (no
alias rule for the household table). -/
def normalizeHouse (cols : List String) : List String :=
  cols.map stripUp

end Retail

namespace Retail

theorem mem_mergeOn {A B : Type} (ka : A → Option ℤ) (kb : B → Option ℤ)
    (l : List A) (r : List B) (a : A) (b : B) :
    (a, b) ∈ mergeOn ka kb l r ↔ a ∈ l ∧ b ∈ r ∧ ka a = kb b := by
  simp only [mergeOn, List.mem_flatMap, List.mem_map, List.mem_filter,
    decide_eq_true_eq, Prod.mk.injEq]
  constructor
  · rintro ⟨a', ha', b', ⟨hb', hk⟩, rfl, rfl⟩
    exact ⟨ha', hb', hk⟩
  · rintro ⟨ha, hb, hk⟩
    exact ⟨a, ha, b, ⟨hb, hk⟩, rfl, rfl⟩

/-- C1 (amended): in each of the two equi-joins, an output row's two
sides always carry equal join keys (so the shared output key equals both
input keys), and a missing-marker key never matches a present key; but a
row whose key is the missing marker matches exactly the rows of the
other table whose key is also missing, because pandas `merge` treats NaN
as equal to NaN.  Membership in the join output is characterized by key
equality. -/
theorem join_key_equality :
    (∀ (tx : List TxRow) (house : List HouseRow) (t : TxRow) (hr : HouseRow),
      ((t, hr) ∈ joinTxHouse tx house ↔ t ∈ tx ∧ hr ∈ house ∧ t.hshd = hr.hshd)) ∧
    (∀ (th : List (TxRow × HouseRow)) (prod : List ProdRow)
      (p : TxRow × HouseRow) (pr : ProdRow),
      ((p, pr) ∈ joinTHProd th prod ↔ p ∈ th ∧ pr ∈ prod ∧ p.1.pnum = pr.pnum)) ∧
    (∀ (tx : List TxRow) (house : List HouseRow) (t : TxRow) (hr : HouseRow),
      t.hshd = none → hr.hshd ≠ none → (t, hr) ∉ joinTxHouse tx house) := by
  refine ⟨fun tx house t hr => mem_mergeOn _ _ _ _ _ _,
    fun th prod p pr => mem_mergeOn _ _ _ _ _ _, ?_⟩
  intro tx house t hr hnone hsome hmem
  rcases (mem_mergeOn _ _ _ _ _ _).mp hmem with ⟨-, -, hk⟩
  exact hsome (hk ▸ hnone)

/-- C1 witness: instantiating the join characterization at a concrete
one-row pair of tables with matching present keys. -/
theorem join_key_equality_witness :
    (⟨some 10, some 1, some "X", some 100, 0⟩, (⟨some 10, 0⟩ : HouseRow)) ∈
      joinTxHouse [⟨some 10, some 1, some "X", some 100, 0⟩] [⟨some 10, 0⟩] :=
  (join_key_equality.1 [⟨some 10, some 1, some "X", some 100, 0⟩] [⟨some 10, 0⟩]
    ⟨some 10, some 1, some "X", some 100, 0⟩ ⟨some 10, 0⟩).mpr
    (by refine ⟨by decide, by decide, rfl⟩)

/-- C1 counterexample: a transaction row and a household row that both
carry the missing-marker key do match under the code's merge, producing
an output row with the missing-key sentinel on both sides — the claim
says this never happens. -/
theorem join_missing_keys_match :
    joinTxHouse [⟨none, some 1, some "X", some 100, 0⟩] [⟨none, 0⟩] =
      [(⟨none, some 1, some "X", some 100, 0⟩, ⟨none, 0⟩)] ∧
    (⟨none, some 1, some "X", some 100, 0⟩ : TxRow).hshd = none ∧
    (⟨none, 0⟩ : HouseRow).hshd = none := by
  refine ⟨rfl, rfl, rfl⟩

/-- C8: for every household id `h`, filtering the household table to `h`
before joining (the `search` route) yields exactly the same set of
joined records as computing the full dashboard join and then keeping
only the rows whose `HSHD_NUM` equals `h` — only the column layout
(pair nesting and row order) differs. -/
theorem pushdown_filter_equivalence :
    ∀ (h : ℤ) (house : List HouseRow) (tx : List TxRow) (prod : List ProdRow)
      (hr : HouseRow) (t : TxRow) (pr : ProdRow),
      ((hr, t), pr) ∈ searchJoin h house tx prod ↔
        ((t, hr), pr) ∈ dashboardFilter h (dashboardJoin house tx prod) := by
  intro h house tx prod hr t pr
  constructor
  · intro hmem
    rcases (mem_mergeOn _ _ _ _ _ _).mp hmem with ⟨hht, hpr, hpk⟩
    rcases (mem_mergeOn _ _ _ _ _ _).mp hht with ⟨hhf, htx, hk⟩
    rcases List.mem_filter.mp hhf with ⟨hhr, heq⟩
    have heq' : hr.hshd = some h := of_decide_eq_true heq
    refine List.mem_filter.mpr ⟨?_, ?_⟩
    · exact (mem_mergeOn _ _ _ _ _ _).mpr
        ⟨(mem_mergeOn _ _ _ _ _ _).mpr ⟨htx, hhr, hk.symm⟩, hpr, by simpa using hpk⟩
    · have hts : t.hshd = some h := hk ▸ heq'
      exact decide_eq_true (by simpa using hts)
  · intro hmem
    rcases List.mem_filter.mp hmem with ⟨hjoin, hfil⟩
    rcases (mem_mergeOn _ _ _ _ _ _).mp hjoin with ⟨hth, hpr, hpk⟩
    rcases (mem_mergeOn _ _ _ _ _ _).mp hth with ⟨htx, hhr, hk⟩
    have hfil' : t.hshd = some h := of_decide_eq_true (by simpa using hfil)
    refine (mem_mergeOn _ _ _ _ _ _).mpr
      ⟨(mem_mergeOn _ _ _ _ _ _).mpr
        ⟨List.mem_filter.mpr ⟨hhr, decide_eq_true ?_⟩, htx, hk.symm⟩, hpr, ?_⟩
    · exact hk ▸ hfil'
    · simpa using hpk

/-- C8 witness: the equivalence applied at a concrete household id and
one-row tables, in the direction from the search-route join to the
filtered dashboard join. -/
theorem pushdown_filter_equivalence_witness :
    ((⟨some 10, 0⟩, ⟨some 10, some 1, some "X", some 100, 0⟩),
      (⟨some 100, some "D", some "C", 0⟩ : ProdRow)) ∈
      searchJoin 10 [⟨some 10, 0⟩] [⟨some 10, some 1, some "X", some 100, 0⟩]
        [⟨some 100, some "D", some "C", 0⟩] :=
  (pushdown_filter_equivalence 10 [⟨some 10, 0⟩]
    [⟨some 10, some 1, some "X", some 100, 0⟩] [⟨some 100, some "D", some "C", 0⟩]
    ⟨some 10, 0⟩ ⟨some 10, some 1, some "X", some 100, 0⟩
    ⟨some 100, some "D", some "C", 0⟩).mpr (by decide)

theorem map_fst_monthlySpend (rows : List DRow) :
    (monthlySpend rows).map Prod.fst = monthsOf rows := by
  simp [monthlySpend, List.map_map, Function.comp_def]

theorem mem_monthsOf {rows : List DRow} {m : ℤ} :
    m ∈ monthsOf rows ↔ ∃ r ∈ rows, rowMonth r = some m := by
  rw [monthsOf, List.mem_insertionSort, List.mem_dedup, List.mem_filterMap]

/-- C2: the monthly spend view groups rows by the calendar month of
`DATE`, sums `SPEND` per group, and lists the `(month, total)` pairs in
strictly ascending month order; each group total sums exactly the rows
whose date parsed into that month, only months present among parseable
dates appear, every such month does appear, and a row with an
unparseable date belongs to no group. -/
theorem monthly_spend_trend :
    ∀ rows : List DRow,
      ((monthlySpend rows).map Prod.fst).Pairwise (· < ·) ∧
      (∀ p ∈ monthlySpend rows,
        p.2 = ((rows.filter fun r => decide (rowMonth r = some p.1)).map DRow.spend).sum ∧
        ∃ r ∈ rows, rowMonth r = some p.1) ∧
      (∀ r ∈ rows, ∀ m : ℤ, rowMonth r = some m →
        ∃ q ∈ monthlySpend rows, q.1 = m) ∧
      (∀ r ∈ rows, r.date = none → ∀ m : ℤ,
        r ∉ rows.filter fun x => decide (rowMonth x = some m)) := by
  intro rows
  refine ⟨?_, ?_, ?_, ?_⟩
  · rw [map_fst_monthlySpend]
    have hs : (monthsOf rows).Pairwise (· ≤ ·) :=
      List.sorted_insertionSort (· ≤ ·) (rows.filterMap rowMonth).dedup
    have hn : (monthsOf rows).Nodup :=
      (List.perm_insertionSort (· ≤ ·) (rows.filterMap rowMonth).dedup).nodup_iff.mpr
        (List.nodup_dedup _)
    exact (hs.and hn).imp fun hab => lt_of_le_of_ne hab.1 hab.2
  · intro p hp
    rcases List.mem_map.mp hp with ⟨m, hm, rfl⟩
    exact ⟨rfl, mem_monthsOf.mp hm⟩
  · intro r hr m hrm
    refine ⟨(m, ((rows.filter fun x => decide (rowMonth x = some m)).map DRow.spend).sum),
      List.mem_map.mpr ⟨m, mem_monthsOf.mpr ⟨r, hr, hrm⟩, rfl⟩, rfl⟩
  · intro r _ hnone m hmem
    rcases List.mem_filter.mp hmem with ⟨-, hdec⟩
    have hsome : rowMonth r = some m := of_decide_eq_true hdec
    rw [rowMonth, hnone] at hsome
    exact Option.noConfusion hsome

theorem dropWhile_idem {α : Type} (p : α → Bool) (l : List α) :
    (l.dropWhile p).dropWhile p = l.dropWhile p := by
  induction l with
  | nil => rfl
  | cons c t ih =>
    by_cases h : p c = true
    · rw [List.dropWhile_cons, if_pos h, ih]
    · rw [List.dropWhile_cons, if_neg h, List.dropWhile_cons, if_neg h]

theorem dropWhile_append_self {α : Type} (p : α → Bool) (b s : List α)
    (h : List.dropWhile p (b ++ s) = b ++ s) : List.dropWhile p b = b := by
  cases b with
  | nil => rfl
  | cons c b' =>
    rw [List.cons_append, List.dropWhile_cons] at h
    by_cases hc : p c = true
    · rw [if_pos hc] at h
      have hsub := (List.dropWhile_sublist (l := b' ++ s) p).length_le
      rw [h] at hsub
      simp only [List.length_cons, List.length_append] at hsub
      omega
    · rw [List.dropWhile_cons, if_neg hc]

theorem eq_dropTrailing_append (a : List Char) :
    a = dropTrailing a ++ (a.reverse.takeWhile isSp).reverse := by
  have h2 := congrArg List.reverse (List.takeWhile_append_dropWhile isSp a.reverse)
  rw [List.reverse_append, List.reverse_reverse] at h2
  rw [dropTrailing]
  exact h2.symm

theorem dropLeading_dropTrailing (a : List Char) (h : dropLeading a = a) :
    dropLeading (dropTrailing a) = dropTrailing a := by
  apply dropWhile_append_self isSp (dropTrailing a) ((a.reverse.takeWhile isSp).reverse)
  rw [← eq_dropTrailing_append a]
  exact h

theorem dropTrailing_idem (x : List Char) : dropTrailing (dropTrailing x) = dropTrailing x := by
  unfold dropTrailing
  rw [List.reverse_reverse, dropWhile_idem]

theorem dropLeading_idem (l : List Char) : dropLeading (dropLeading l) = dropLeading l :=
  dropWhile_idem isSp l

theorem stripChars_idem (l : List Char) : stripChars (stripChars l) = stripChars l := by
  show dropTrailing (dropLeading (dropTrailing (dropLeading l))) = dropTrailing (dropLeading l)
  rw [dropLeading_dropTrailing (dropLeading l) (dropLeading_idem l), dropTrailing_idem]

theorem toNat_ofNat_upper (n : ℕ) (h1 : 97 ≤ n) (h2 : n ≤ 122) :
    (Char.ofNat (n - 32)).toNat = n - 32 := by
  interval_cases n <;> decide

theorem upChar_not_lower (c : Char) :
    ¬ (97 ≤ (upChar c).toNat ∧ (upChar c).toNat ≤ 122) := by
  unfold upChar
  by_cases h : 97 ≤ c.toNat ∧ c.toNat ≤ 122
  · rw [if_pos h, toNat_ofNat_upper c.toNat h.1 h.2]
    omega
  · rw [if_neg h]
    exact h

theorem upChar_idem (c : Char) : upChar (upChar c) = upChar c :=
  if_neg (upChar_not_lower c)

theorem isSp_upChar (c : Char) : isSp (upChar c) = isSp c := by
  unfold upChar
  by_cases h : 97 ≤ c.toNat ∧ c.toNat ≤ 122
  · rw [if_pos h]
    unfold isSp
    rw [decide_eq_decide, toNat_ofNat_upper c.toNat h.1 h.2]
    omega
  · rw [if_neg h]

theorem stripChars_map_upChar (l : List Char) :
    stripChars (l.map upChar) = (stripChars l).map upChar := by
  have hfun : (isSp ∘ upChar) = isSp := funext isSp_upChar
  show dropTrailing (dropLeading (l.map upChar)) = (dropTrailing (dropLeading l)).map upChar
  unfold dropTrailing dropLeading
  rw [List.dropWhile_map, hfun, ← List.map_reverse, List.dropWhile_map, hfun,
    ← List.map_reverse]

theorem stripUp_idem (s : String) : stripUp (stripUp s) = stripUp s := by
  refine congrArg String.mk ?_
  show ((stripChars ((stripChars s.data).map upChar)).map upChar) =
    (stripChars s.data).map upChar
  rw [stripChars_map_upChar, stripChars_idem, List.map_map]
  exact List.map_congr_left fun a _ => upChar_idem a

theorem map_stripUp_idem (cols : List String) :
    (cols.map stripUp).map stripUp = cols.map stripUp := by
  rw [List.map_map]
  exact List.map_congr_left fun c _ => stripUp_idem c

theorem map_stripUp_rename_fix (a b : String) (hb : stripUp b = b) (cols : List String) :
    (((cols.map stripUp).map (renameCol a b)).map stripUp) =
      (cols.map stripUp).map (renameCol a b) := by
  rw [List.map_map, List.map_map, List.map_map]
  apply List.map_congr_left
  intro c _
  show stripUp (renameCol a b (stripUp c)) = renameCol a b (stripUp c)
  unfold renameCol
  by_cases h : stripUp c = a
  · rw [if_pos h]
    exact hb
  · rw [if_neg h]
    exact stripUp_idem c

theorem notmem_map_renameCol (a b : String) (l : List String) (hab : a ≠ b) :
    a ∉ l.map (renameCol a b) := by
  intro hmem
  rcases List.mem_map.mp hmem with ⟨c, -, hc⟩
  unfold renameCol at hc
  by_cases h : c = a
  · rw [if_pos h] at hc
    exact hab hc.symm
  · rw [if_neg h] at hc
    exact h hc

theorem mem_map_renameCol (a b c : String) (l : List String) (h1 : c ≠ a) (h2 : c ≠ b) :
    c ∈ l.map (renameCol a b) ↔ c ∈ l := by
  constructor
  · intro hmem
    rcases List.mem_map.mp hmem with ⟨d, hd, hdc⟩
    unfold renameCol at hdc
    by_cases h : d = a
    · rw [if_pos h] at hdc
      exact absurd hdc.symm h2
    · rw [if_neg h] at hdc
      exact hdc ▸ hd
  · intro hmem
    refine List.mem_map.mpr ⟨c, hmem, ?_⟩
    unfold renameCol
    rw [if_neg h1]

theorem map_renameCol_of_not_mem (a b : String) (l : List String) (h : a ∉ l) :
    l.map (renameCol a b) = l := by
  have hpt : ∀ c ∈ l, renameCol a b c = c := by
    intro c hc
    have hca : c ≠ a := fun hh => h (hh ▸ hc)
    unfold renameCol
    rw [if_neg hca]
  rw [List.map_congr_left hpt, List.map_id']

/-- C6: transaction-table alias resolution errors exactly when neither
`PURCHASE_` nor `PURCHASE_DATE` is a column after trim/uppercase
normalization; when `PURCHASE_` is present it is the column renamed to
`DATE` (taking precedence over `PURCHASE_DATE`), otherwise a present
`PURCHASE_DATE` is renamed; and two transaction tables identical except
for which of the two alias columns they carry normalize to the identical
schema. -/
theorem alias_resolution_correct (cols : List String) :
    ((∃ e, normalizeTx cols = Except.error e) ↔
      ("PURCHASE_" ∉ cols.map stripUp ∧ "PURCHASE_DATE" ∉ cols.map stripUp)) ∧
    ("PURCHASE_" ∈ cols.map stripUp →
      normalizeTx cols =
        Except.ok ((cols.map stripUp).map (renameCol "PURCHASE_" "DATE"))) ∧
    ("PURCHASE_" ∉ cols.map stripUp → "PURCHASE_DATE" ∈ cols.map stripUp →
      normalizeTx cols =
        Except.ok ((cols.map stripUp).map (renameCol "PURCHASE_DATE" "DATE"))) ∧
    (∀ pre post : List String,
      "PURCHASE_" ∉ pre ∧ "PURCHASE_" ∉ post →
      "PURCHASE_DATE" ∉ pre ∧ "PURCHASE_DATE" ∉ post →
      resolveDateAlias (pre ++ "PURCHASE_" :: post) =
          resolveDateAlias (pre ++ "PURCHASE_DATE" :: post) ∧
        resolveDateAlias (pre ++ "PURCHASE_" :: post) =
          Except.ok (pre ++ "DATE" :: post)) := by
  refine ⟨?_, ?_, ?_, ?_⟩
  · unfold normalizeTx resolveDateAlias
    by_cases h1 : "PURCHASE_" ∈ cols.map stripUp
    · rw [if_pos h1]
      exact ⟨fun he => Except.noConfusion he.choose_spec, fun hn => absurd h1 hn.1⟩
    · rw [if_neg h1]
      by_cases h2 : "PURCHASE_DATE" ∈ cols.map stripUp
      · rw [if_pos h2]
        exact ⟨fun he => Except.noConfusion he.choose_spec, fun hn => absurd h2 hn.2⟩
      · rw [if_neg h2]
        exact ⟨fun _ => ⟨h1, h2⟩, fun _ => ⟨_, rfl⟩⟩
  · intro h1
    unfold normalizeTx resolveDateAlias
    rw [if_pos h1]
  · intro h1 h2
    unfold normalizeTx resolveDateAlias
    rw [if_neg h1, if_pos h2]
  · intro pre post hP hPD
    have hne : "PURCHASE_" ≠ "PURCHASE_DATE" := by decide
    have hmem1 : "PURCHASE_" ∈ pre ++ "PURCHASE_" :: post := by simp
    have hnot1 : "PURCHASE_" ∉ pre ++ "PURCHASE_DATE" :: post := by
      simp [List.mem_append, hP.1, hP.2, hne]
    have hmem2 : "PURCHASE_DATE" ∈ pre ++ "PURCHASE_DATE" :: post := by simp
    have e1 : (pre ++ "PURCHASE_" :: post).map (renameCol "PURCHASE_" "DATE") =
        pre ++ "DATE" :: post := by
      rw [List.map_append, List.map_cons, map_renameCol_of_not_mem _ _ _ hP.1,
        map_renameCol_of_not_mem _ _ _ hP.2]
      simp [renameCol]
    have e2 : (pre ++ "PURCHASE_DATE" :: post).map (renameCol "PURCHASE_DATE" "DATE") =
        pre ++ "DATE" :: post := by
      rw [List.map_append, List.map_cons, map_renameCol_of_not_mem _ _ _ hPD.1,
        map_renameCol_of_not_mem _ _ _ hPD.2]
      simp [renameCol]
    unfold resolveDateAlias
    rw [if_pos hmem1, if_neg hnot1, if_pos hmem2, e1, e2]
    exact ⟨rfl, rfl⟩

/-- C6 witness: the precedence branch applied to a concrete raw header
list whose date alias only appears as lowercase `purchase_date`. -/
theorem alias_resolution_correct_witness :
    normalizeTx ["purchase_date", "HSHD_NUM"] =
      Except.ok ((["purchase_date", "HSHD_NUM"].map stripUp).map
        (renameCol "PURCHASE_DATE" "DATE")) :=
  (alias_resolution_correct ["purchase_date", "HSHD_NUM"]).2.2.1 (by decide) (by decide)

/-- C7 counterexample: normalizing a transaction table whose only date
column is `PURCHASE_DATE` yields the schema `[DATE]`, but applying the
normalization step to that output does not return it unchanged — it
raises the schema error, because neither alias column remains. -/
theorem normalize_not_idempotent :
    normalizeTx ["PURCHASE_DATE"] = Except.ok ["DATE"] ∧
    normalizeTx ["DATE"] = Except.error "no recognized date column" := by
  exact ⟨rfl, rfl⟩

/-- C7 (amended): trim/uppercase normalization and the household and
product normalizations are idempotent, but transaction-table
normalization never is: re-applying it to any successfully normalized
schema either raises the schema error (no alias column remains) or, when
both aliases were originally present, renames the surviving
`PURCHASE_DATE` and changes the schema. -/
theorem normalization_idempotence_amended :
    (∀ cols : List String, normalizeHouse (normalizeHouse cols) = normalizeHouse cols) ∧
    (∀ cols : List String, normalizeProd (normalizeProd cols) = normalizeProd cols) ∧
    (∀ cols out : List String, normalizeTx cols = Except.ok out →
      normalizeTx out ≠ Except.ok out) := by
  refine ⟨?_, ?_, ?_⟩
  · intro cols
    exact map_stripUp_idem cols
  · intro cols
    by_cases hb : "BRAND_TY" ∈ cols.map stripUp
    · have hout : normalizeProd cols =
          (cols.map stripUp).map (renameCol "BRAND_TY" "BRAND_TYPE") := by
        unfold normalizeProd resolveBrandAlias
        rw [if_pos hb]
      have hfix := map_stripUp_rename_fix "BRAND_TY" "BRAND_TYPE" (by decide) cols
      have hnb := notmem_map_renameCol "BRAND_TY" "BRAND_TYPE"
        (cols.map stripUp) (by decide)
      rw [hout]
      show resolveBrandAlias
        ((((cols.map stripUp).map (renameCol "BRAND_TY" "BRAND_TYPE"))).map stripUp) = _
      rw [hfix]
      unfold resolveBrandAlias
      rw [if_neg hnb]
    · have hout : normalizeProd cols = cols.map stripUp := by
        unfold normalizeProd resolveBrandAlias
        rw [if_neg hb]
      rw [hout]
      show resolveBrandAlias ((cols.map stripUp).map stripUp) = cols.map stripUp
      rw [map_stripUp_idem]
      unfold resolveBrandAlias
      rw [if_neg hb]
  · intro cols out h
    unfold normalizeTx resolveDateAlias at h
    by_cases h1 : "PURCHASE_" ∈ cols.map stripUp
    · rw [if_pos h1] at h
      have hout : (cols.map stripUp).map (renameCol "PURCHASE_" "DATE") = out :=
        Except.ok.inj h
      subst hout
      have hfix := map_stripUp_rename_fix "PURCHASE_" "DATE" (by decide) cols
      have hnp := notmem_map_renameCol "PURCHASE_" "DATE" (cols.map stripUp) (by decide)
      intro hcontra
      unfold normalizeTx resolveDateAlias at hcontra
      rw [hfix, if_neg hnp] at hcontra
      by_cases hpd : "PURCHASE_DATE" ∈ (cols.map stripUp).map (renameCol "PURCHASE_" "DATE")
      · rw [if_pos hpd] at hcontra
        have heq := Except.ok.inj hcontra
        have hgone := notmem_map_renameCol "PURCHASE_DATE" "DATE"
          ((cols.map stripUp).map (renameCol "PURCHASE_" "DATE")) (by decide)
        rw [heq] at hgone
        exact hgone hpd
      · rw [if_neg hpd] at hcontra
        exact Except.noConfusion hcontra
    · rw [if_neg h1] at h
      by_cases h2 : "PURCHASE_DATE" ∈ cols.map stripUp
      · rw [if_pos h2] at h
        have hout : (cols.map stripUp).map (renameCol "PURCHASE_DATE" "DATE") = out :=
          Except.ok.inj h
        subst hout
        have hfix := map_stripUp_rename_fix "PURCHASE_DATE" "DATE" (by decide) cols
        have hnp : "PURCHASE_" ∉
            (cols.map stripUp).map (renameCol "PURCHASE_DATE" "DATE") := by
          rw [mem_map_renameCol _ _ _ _ (by decide) (by decide)]
          exact h1
        have hnpd := notmem_map_renameCol "PURCHASE_DATE" "DATE"
          (cols.map stripUp) (by decide)
        intro hcontra
        unfold normalizeTx resolveDateAlias at hcontra
        rw [hfix, if_neg hnp, if_neg hnpd] at hcontra
        exact Except.noConfusion hcontra
      · rw [if_neg h2] at h
        exact Except.noConfusion h

/-- C7 witness: the amended theorem applied at the concrete normalized
schema of a `PURCHASE_DATE` transaction table. -/
theorem normalization_idempotence_amended_witness :
    normalizeTx ["DATE"] ≠ Except.ok ["DATE"] :=
  normalization_idempotence_amended.2.2 ["PURCHASE_DATE"] ["DATE"] rfl

/-- C2 witness: the monthly view evaluated through the theorem at a
concrete two-month table containing an unparseable date. -/
theorem monthly_spend_trend_witness :
    ∃ q ∈ monthlySpend [⟨some (2023, 1, 15), 5⟩, ⟨none, 7⟩, ⟨some (2023, 1, 20), 3⟩],
      q.1 = toMonth (2023, 1, 15) :=
  (monthly_spend_trend [⟨some (2023, 1, 15), 5⟩, ⟨none, 7⟩, ⟨some (2023, 1, 20), 3⟩]).2.2.1
    ⟨some (2023, 1, 15), 5⟩ (by decide) (toMonth (2023, 1, 15)) rfl

theorem countKey_cons {β : Type} [DecidableEq β] (k x : β) (l : List β) :
    countKey k (x :: l) = countKey k l + if x = k then 1 else 0 := by
  by_cases h : x = k
  · simp [countKey, List.filter_cons, h]
  · simp [countKey, List.filter_cons, h]

theorem countKey_append {β : Type} [DecidableEq β] (k : β) (l1 l2 : List β) :
    countKey k (l1 ++ l2) = countKey k l1 + countKey k l2 := by
  simp [countKey, List.filter_append]

theorem countKey_flatten {β : Type} [DecidableEq β] (k : β) :
    ∀ L : List (List β), countKey k L.flatten = (L.map (countKey k)).sum := by
  intro L
  induction L with
  | nil => rfl
  | cons l L ih =>
    rw [List.flatten_cons, countKey_append, List.map_cons, List.sum_cons, ih]

theorem countKey_map_eq {α β : Type} [DecidableEq α] [DecidableEq β]
    (f : α → β) (c : β) (g : α) (hf : ∀ y, f y = c ↔ y = g) (l : List α) :
    countKey c (l.map f) = countKey g l := by
  induction l with
  | nil => rfl
  | cons y ys ih =>
    rw [List.map_cons, countKey_cons, countKey_cons, ih]
    congr 1
    by_cases h : y = g
    · rw [if_pos ((hf y).mpr h), if_pos h]
    · rw [if_neg (fun hh => h ((hf y).mp hh)), if_neg h]

theorem countKey_map_zero {α β : Type} [DecidableEq β] (f : α → β) (c : β)
    (hf : ∀ y, f y ≠ c) (l : List α) : countKey c (l.map f) = 0 := by
  induction l with
  | nil => rfl
  | cons y ys ih =>
    rw [List.map_cons, countKey_cons, ih, if_neg (hf y)]

theorem countKey_nodup {β : Type} [DecidableEq β] (k : β) :
    ∀ l : List β, l.Nodup → countKey k l = if k ∈ l then 1 else 0 := by
  intro l
  induction l with
  | nil => intro _; simp [countKey]
  | cons x xs ih =>
    intro h
    rcases List.nodup_cons.mp h with ⟨hx, hxs⟩
    rw [countKey_cons, ih hxs]
    by_cases hk : x = k
    · have hkxs : k ∉ xs := fun hh => hx (hk.symm ▸ hh)
      rw [if_pos hk, if_neg hkxs, if_pos (List.mem_cons.mpr (Or.inl hk.symm))]
    · rw [if_neg hk]
      by_cases hkmem : k ∈ xs
      · rw [if_pos hkmem, if_pos (List.mem_cons_of_mem x hkmem)]
      · rw [if_neg hkmem, if_neg]
        intro hh
        rcases List.mem_cons.mp hh with h1 | h1
        · exact hk h1.symm
        · exact hkmem h1

theorem mem_pairsOf {α : Type} {p : α × α} :
    ∀ {l : List α}, p ∈ pairsOf l → p.1 ∈ l ∧ p.2 ∈ l := by
  intro l
  induction l with
  | nil => intro h; exact absurd h (List.not_mem_nil p)
  | cons x xs ih =>
    intro h
    rcases List.mem_append.mp h with h1 | h2
    · rcases List.mem_map.mp h1 with ⟨y, hy, rfl⟩
      exact ⟨List.mem_cons_self x xs, List.mem_cons_of_mem x hy⟩
    · rcases ih h2 with ⟨ha, hb⟩
      exact ⟨List.mem_cons_of_mem x ha, List.mem_cons_of_mem x hb⟩

theorem sortPair_eq_iff {x y a b : String} (hab : a ≠ b) :
    sortPair (x, y) = sortPair (a, b) ↔ ((x = a ∧ y = b) ∨ (x = b ∧ y = a)) := by
  unfold sortPair
  dsimp only
  split_ifs with h1 h2 h2 <;>
    simp only [Prod.mk.injEq] <;> constructor
  · rintro ⟨rfl, rfl⟩
    exact Or.inl ⟨rfl, rfl⟩
  · rintro (⟨rfl, rfl⟩ | ⟨rfl, rfl⟩)
    · exact ⟨rfl, rfl⟩
    · exact absurd (le_antisymm h2 h1) hab
  · rintro ⟨rfl, rfl⟩
    exact Or.inr ⟨rfl, rfl⟩
  · rintro (⟨rfl, rfl⟩ | ⟨rfl, rfl⟩)
    · exact absurd h1 h2
    · exact ⟨rfl, rfl⟩
  · rintro ⟨rfl, rfl⟩
    exact Or.inr ⟨rfl, rfl⟩
  · rintro (⟨rfl, rfl⟩ | ⟨rfl, rfl⟩)
    · exact absurd h2 h1
    · exact ⟨rfl, rfl⟩
  · rintro ⟨rfl, rfl⟩
    exact Or.inl ⟨rfl, rfl⟩
  · rintro (⟨rfl, rfl⟩ | ⟨rfl, rfl⟩)
    · exact ⟨rfl, rfl⟩
    · exact absurd (le_antisymm (le_of_not_le h1) (le_of_not_le h2)) hab

theorem count_basketPairs (a b : String) (hab : a ≠ b) :
    ∀ l : List String, l.Nodup →
      countKey (sortPair (a, b)) ((pairsOf l).map sortPair) =
        if a ∈ l ∧ b ∈ l then 1 else 0 := by
  intro l
  induction l with
  | nil =>
    intro _
    simp [pairsOf, countKey]
  | cons x xs ih =>
    intro hnd
    rcases List.nodup_cons.mp hnd with ⟨hx, hxs⟩
    simp only [pairsOf, List.map_append, countKey_append, List.map_map]
    by_cases hxa : x = a
    · have h1 : countKey (sortPair (a, b)) (xs.map (sortPair ∘ fun y => (x, y))) =
          countKey b xs := by
        refine countKey_map_eq (sortPair ∘ fun y => (x, y)) (sortPair (a, b)) b ?_ xs
        intro y
        rw [Function.comp_apply, sortPair_eq_iff hab]
        constructor
        · rintro (⟨-, rfl⟩ | ⟨hxb', rfl⟩)
          · rfl
          · exact absurd (hxa.symm.trans hxb') hab
        · rintro rfl
          exact Or.inl ⟨hxa, rfl⟩
      have hax : a ∉ xs := fun hh => hx (hxa.symm ▸ hh)
      have h2 : countKey (sortPair (a, b)) ((pairsOf xs).map sortPair) = 0 := by
        rw [ih hxs, if_neg (fun hh => hax hh.1)]
      rw [h1, h2, Nat.add_zero, countKey_nodup b xs hxs]
      have hbx : b ≠ x := fun hh => hab (hh.trans hxa).symm
      by_cases hb : b ∈ xs
      · rw [if_pos hb, if_pos ⟨List.mem_cons.mpr (Or.inl hxa.symm),
          List.mem_cons_of_mem x hb⟩]
      · rw [if_neg hb, if_neg]
        rintro ⟨-, hbmem⟩
        rcases List.mem_cons.mp hbmem with hh | hh
        · exact hbx hh
        · exact hb hh
    · by_cases hxb : x = b
      · have h1 : countKey (sortPair (a, b)) (xs.map (sortPair ∘ fun y => (x, y))) =
            countKey a xs := by
          refine countKey_map_eq (sortPair ∘ fun y => (x, y)) (sortPair (a, b)) a ?_ xs
          intro y
          rw [Function.comp_apply, sortPair_eq_iff hab]
          constructor
          · rintro (⟨hxa', rfl⟩ | ⟨-, rfl⟩)
            · exact absurd hxa' hxa
            · rfl
          · rintro rfl
            exact Or.inr ⟨hxb, rfl⟩
        have hbxs : b ∉ xs := fun hh => hx (hxb.symm ▸ hh)
        have h2 : countKey (sortPair (a, b)) ((pairsOf xs).map sortPair) = 0 := by
          rw [ih hxs, if_neg (fun hh => hbxs hh.2)]
        rw [h1, h2, Nat.add_zero, countKey_nodup a xs hxs]
        by_cases ha : a ∈ xs
        · rw [if_pos ha, if_pos ⟨List.mem_cons_of_mem x ha,
            List.mem_cons.mpr (Or.inl hxb.symm)⟩]
        · rw [if_neg ha, if_neg]
          rintro ⟨hamem, -⟩
          rcases List.mem_cons.mp hamem with hh | hh
          · exact hxa hh.symm
          · exact ha hh
      · have h1 : countKey (sortPair (a, b)) (xs.map (sortPair ∘ fun y => (x, y))) = 0 := by
          refine countKey_map_zero (sortPair ∘ fun y => (x, y)) (sortPair (a, b)) ?_ xs
          intro y hy
          rcases (sortPair_eq_iff hab).mp hy with ⟨hh, -⟩ | ⟨hh, -⟩
          · exact hxa hh
          · exact hxb hh
        rw [h1, ih hxs, Nat.zero_add]
        by_cases hmem : a ∈ xs ∧ b ∈ xs
        · rw [if_pos hmem, if_pos ⟨List.mem_cons_of_mem x hmem.1,
            List.mem_cons_of_mem x hmem.2⟩]
        · rw [if_neg hmem, if_neg]
          rintro ⟨hamem, hbmem⟩
          refine hmem ⟨?_, ?_⟩
          · rcases List.mem_cons.mp hamem with hh | hh
            · exact absurd hh.symm hxa
            · exact hh
          · rcases List.mem_cons.mp hbmem with hh | hh
            · exact absurd hh.symm hxb
            · exact hh

theorem sum_map_ite_one {γ : Type} (P : γ → Prop) [DecidablePred P] (l : List γ) :
    (l.map fun k => if P k then 1 else 0).sum =
      (l.filter fun k => decide (P k)).length := by
  induction l with
  | nil => rfl
  | cons x t ih =>
    by_cases h : P x <;> simp [List.filter_cons, h, ih] <;> omega

/-- C4: the cross-sell pair counter is set-based and order-insensitive —
for distinct commodities `a` and `b`, the final count stored at the
canonical sorted key is exactly the number of distinct
`(HSHD_NUM, BASKET_NUM)` baskets whose commodity list contains both `a`
and `b` (multiplicity and within-basket order are irrelevant, since
only membership in the basket appears on the right-hand side), and a
basket with fewer than two distinct commodities emits no pairs. -/
theorem cross_sell_pair_count :
    (∀ (rows : List MRow) (a b : String), a ≠ b →
      pairCount (basketProducts rows) (sortPair (a, b)) =
        ((groupKeys rows).filter fun k =>
          decide (a ∈ basketList rows k ∧ b ∈ basketList rows k)).length) ∧
    (∀ items : List String, items.dedup.length < 2 → basketPairs items = []) := by
  constructor
  · intro rows a b hab
    show countKey (sortPair (a, b)) (((basketProducts rows).map basketPairs).flatten) = _
    rw [countKey_flatten, List.map_map, basketProducts, List.map_map]
    have hterm : ∀ k ∈ groupKeys rows,
        ((countKey (sortPair (a, b)) ∘ basketPairs) ∘ basketList rows) k =
          if a ∈ basketList rows k ∧ b ∈ basketList rows k then 1 else 0 := by
      intro k _
      have hc := count_basketPairs a b hab (basketList rows k).dedup
        (List.nodup_dedup _)
      rw [Function.comp_apply, Function.comp_apply, basketPairs, hc]
      by_cases hm : a ∈ basketList rows k ∧ b ∈ basketList rows k
      · rw [if_pos ⟨List.mem_dedup.mpr hm.1, List.mem_dedup.mpr hm.2⟩, if_pos hm]
      · rw [if_neg (fun hh => hm ⟨List.mem_dedup.mp hh.1, List.mem_dedup.mp hh.2⟩),
          if_neg hm]
    rw [List.map_congr_left hterm, sum_map_ite_one]
  · intro items hlen
    cases hd : items.dedup with
    | nil => simp [basketPairs, hd, pairsOf]
    | cons x xs =>
      cases xs with
      | nil => simp [basketPairs, hd, pairsOf]
      | cons y ys =>
        rw [hd] at hlen
        simp only [List.length_cons] at hlen
        omega

/-- C4 witness: the count equation instantiated at a concrete table
with one two-commodity basket, discharging the distinctness
hypothesis. -/
theorem cross_sell_pair_count_witness :
    pairCount (basketProducts [⟨some 10, some 1, "MILK"⟩, ⟨some 10, some 1, "BREAD"⟩])
        (sortPair ("MILK", "BREAD")) =
      ((groupKeys [⟨some 10, some 1, "MILK"⟩, ⟨some 10, some 1, "BREAD"⟩]).filter fun k =>
        decide ("MILK" ∈ basketList [⟨some 10, some 1, "MILK"⟩,
            ⟨some 10, some 1, "BREAD"⟩] k ∧
          "BREAD" ∈ basketList [⟨some 10, some 1, "MILK"⟩,
            ⟨some 10, some 1, "BREAD"⟩] k)).length :=
  cross_sell_pair_count.1 [⟨some 10, some 1, "MILK"⟩, ⟨some 10, some 1, "BREAD"⟩]
    "MILK" "BREAD" (by decide)

theorem bumpList_keys (k : String × String) :
    ∀ acc : List ((String × String) × ℕ),
      (bumpList k acc).map Prod.fst =
        if k ∈ acc.map Prod.fst then acc.map Prod.fst
        else acc.map Prod.fst ++ [k] := by
  intro acc
  induction acc with
  | nil => simp [bumpList]
  | cons e rest ih =>
    by_cases hek : e.1 = k
    · have hkmem : k ∈ (e :: rest).map Prod.fst := by
        rw [List.map_cons]
        exact List.mem_cons.mpr (Or.inl hek.symm)
      simp only [bumpList, if_pos hek]
      rw [if_pos hkmem, List.map_cons, List.map_cons]
    · simp only [bumpList, if_neg hek, List.map_cons, ih]
      by_cases hk : k ∈ rest.map Prod.fst
      · rw [if_pos hk, if_pos (List.mem_cons.mpr (Or.inr hk))]
      · rw [if_neg hk, if_neg, List.cons_append]
        intro hh
        rcases List.mem_cons.mp hh with h1 | h1
        · exact hek h1.symm
        · exact hk h1

theorem bumpList_entries (k : String × String) :
    ∀ acc : List ((String × String) × ℕ), (acc.map Prod.fst).Nodup →
      ∀ p ∈ bumpList k acc,
        (p.1 ≠ k ∧ p ∈ acc) ∨
        (p.1 = k ∧ ((k ∉ acc.map Prod.fst ∧ p.2 = 1) ∨
          ∃ n, (k, n) ∈ acc ∧ p.2 = n + 1)) := by
  intro acc
  induction acc with
  | nil =>
    intro _ p hp
    rcases List.mem_singleton.mp hp with rfl
    exact Or.inr ⟨rfl, Or.inl ⟨by simp, rfl⟩⟩
  | cons e rest ih =>
    intro hnd p hp
    have hnd' : (e.1 :: rest.map Prod.fst).Nodup := by simpa using hnd
    rcases List.nodup_cons.mp hnd' with ⟨he, hrest⟩
    by_cases hek : e.1 = k
    · simp only [bumpList, if_pos hek] at hp
      rcases List.mem_cons.mp hp with rfl | hp'
      · refine Or.inr ⟨hek, Or.inr ⟨e.2, ?_, rfl⟩⟩
        refine List.mem_cons.mpr (Or.inl ?_)
        rw [← hek]
      · refine Or.inl ⟨?_, List.mem_cons_of_mem e hp'⟩
        intro hh
        refine he ?_
        rw [hek, ← hh]
        exact List.mem_map_of_mem Prod.fst hp'
    · simp only [bumpList, if_neg hek] at hp
      rcases List.mem_cons.mp hp with rfl | hp'
      · exact Or.inl ⟨hek, List.mem_cons_self _ _⟩
      · rcases ih hrest p hp' with ⟨hne, hmem⟩ | ⟨hke, hinfo⟩
        · exact Or.inl ⟨hne, List.mem_cons_of_mem e hmem⟩
        · refine Or.inr ⟨hke, ?_⟩
          rcases hinfo with ⟨hnot, h1⟩ | ⟨n, hn, h2⟩
          · refine Or.inl ⟨?_, h1⟩
            rw [List.map_cons]
            intro hh
            rcases List.mem_cons.mp hh with h3 | h3
            · exact hek h3.symm
            · exact hnot h3
          · exact Or.inr ⟨n, List.mem_cons_of_mem e hn, h2⟩

theorem counterFold_inv :
    ∀ (ks : List (String × String)) (acc : List ((String × String) × ℕ))
      (f : String × String → ℕ),
      (acc.map Prod.fst).Nodup →
      (∀ p ∈ acc, p.2 = f p.1) →
      (∀ k', k' ∈ acc.map Prod.fst ↔ 0 < f k') →
      ((ks.foldl (fun acc k => bumpList k acc) acc).map Prod.fst).Nodup ∧
      (∀ p ∈ ks.foldl (fun acc k => bumpList k acc) acc,
        p.2 = f p.1 + countKey p.1 ks) ∧
      (∀ k', k' ∈ (ks.foldl (fun acc k => bumpList k acc) acc).map Prod.fst ↔
        0 < f k' + countKey k' ks) := by
  intro ks
  induction ks with
  | nil =>
    intro acc f hnd hv hm
    refine ⟨hnd, ?_, ?_⟩
    · intro p hp
      simpa [countKey] using hv p hp
    · intro k'
      simpa [countKey] using hm k'
  | cons kk ks ih =>
    intro acc f hnd hv hm
    have hnd' : ((bumpList kk acc).map Prod.fst).Nodup := by
      rw [bumpList_keys]
      by_cases hk : kk ∈ acc.map Prod.fst
      · rw [if_pos hk]
        exact hnd
      · rw [if_neg hk]
        refine List.Nodup.append hnd (List.nodup_singleton kk) ?_
        intro x hx hx'
        rcases List.mem_singleton.mp hx' with rfl
        exact hk hx
    have hv' : ∀ p ∈ bumpList kk acc,
        p.2 = f p.1 + if p.1 = kk then 1 else 0 := by
      intro p hp
      rcases bumpList_entries kk acc hnd p hp with ⟨hne, hmem⟩ | ⟨hke, hinfo⟩
      · rw [if_neg hne, Nat.add_zero]
        exact hv p hmem
      · rw [if_pos hke]
        rcases hinfo with ⟨hnot, h1⟩ | ⟨n, hn, h2⟩
        · have hx : ¬ 0 < f kk := fun hpos => hnot ((hm kk).mpr hpos)
          have hf : f kk = 0 := by omega
          rw [h1, hke, hf]
        · have hfn : n = f kk := by simpa using hv (kk, n) hn
          rw [h2, hke, ← hfn]
    have hm' : ∀ k', k' ∈ (bumpList kk acc).map Prod.fst ↔
        0 < f k' + if k' = kk then 1 else 0 := by
      intro k'
      rw [bumpList_keys]
      by_cases hk : kk ∈ acc.map Prod.fst
      · rw [if_pos hk]
        by_cases hk' : k' = kk
        · rw [if_pos hk']
          exact ⟨fun _ => by omega, fun _ => by rw [hk']; exact hk⟩
        · rw [if_neg hk', Nat.add_zero]
          exact hm k'
      · rw [if_neg hk]
        by_cases hk' : k' = kk
        · rw [if_pos hk']
          refine ⟨fun _ => by omega, fun _ => ?_⟩
          exact List.mem_append.mpr (Or.inr (by rw [hk']; exact List.mem_singleton.mpr rfl))
        · rw [if_neg hk', Nat.add_zero, List.mem_append]
          constructor
          · rintro (h1 | h1)
            · exact (hm k').mp h1
            · exact absurd (List.mem_singleton.mp h1) hk'
          · intro hpos
            exact Or.inl ((hm k').mpr hpos)
    have hstep := ih (bumpList kk acc) (fun k' => f k' + if k' = kk then 1 else 0)
      hnd' hv' hm'
    simp only [List.foldl_cons]
    refine ⟨hstep.1, ?_, ?_⟩
    · intro p hp
      have hval := hstep.2.1 p hp
      rw [hval, countKey_cons]
      dsimp only
      by_cases h : p.1 = kk
      · rw [if_pos h, if_pos h.symm]
        omega
      · rw [if_neg h, if_neg (fun hh => h hh.symm)]
        omega
    · intro k'
      rw [hstep.2.2 k', countKey_cons]
      dsimp only
      by_cases h : k' = kk
      · rw [if_pos h, if_pos h.symm]
        omega
      · rw [if_neg h, if_neg (fun hh => h hh.symm)]
        omega

theorem counterItems_spec (baskets : List (List String)) :
    ((counterItems baskets).map Prod.fst).Nodup ∧
    (∀ p ∈ counterItems baskets, p.2 = pairCount baskets p.1) ∧
    (∀ k, k ∈ (counterItems baskets).map Prod.fst ↔ 0 < pairCount baskets k) := by
  have h := counterFold_inv ((baskets.map basketPairs).flatten) [] (fun _ => 0)
    (by simp) (by intro p hp; exact absurd hp (List.not_mem_nil p)) (by intro k'; simp)
  refine ⟨h.1, ?_, ?_⟩
  · intro p hp
    simpa [pairCount] using h.2.1 p hp
  · intro k
    simpa [pairCount] using h.2.2 k

theorem filter_insertionSort_cnt (c : ℕ) (l : List ((String × String) × ℕ)) :
    (List.insertionSort cntDesc l).filter (fun p => decide (p.2 = c)) =
      l.filter (fun p => decide (p.2 = c)) := by
  induction l with
  | nil => rfl
  | cons x t ih =>
    show (List.orderedInsert cntDesc x (List.insertionSort cntDesc t)).filter _ = _
    rw [List.orderedInsert_eq_take_drop, List.filter_append]
    by_cases hx : x.2 = c
    · have htw : (List.takeWhile (fun b => decide ¬ cntDesc x b)
          (List.insertionSort cntDesc t)).filter (fun p => decide (p.2 = c)) = [] := by
        rw [List.filter_eq_nil_iff]
        intro p hp
        have hcond := @List.mem_takeWhile_imp ((String × String) × ℕ)
          (fun b => decide (¬ cntDesc x b)) (List.insertionSort cntDesc t) p hp
        have hlt : ¬ (p.2 ≤ x.2) := of_decide_eq_true hcond
        simp only [decide_eq_true_eq]
        intro hpc
        exact hlt (by rw [hpc, hx])
      rw [htw, List.nil_append, List.filter_cons, if_pos (by simpa using hx),
        List.filter_cons, if_pos (by simpa using hx)]
      congr 1
      have hsplit := List.takeWhile_append_dropWhile
        (fun b => decide ¬ cntDesc x b) (List.insertionSort cntDesc t)
      have : (List.insertionSort cntDesc t).filter (fun p => decide (p.2 = c)) =
          (List.dropWhile (fun b => decide ¬ cntDesc x b)
            (List.insertionSort cntDesc t)).filter (fun p => decide (p.2 = c)) := by
        conv_lhs => rw [← hsplit]
        rw [List.filter_append, htw, List.nil_append]
      rw [← this, ih]
    · rw [List.filter_cons, if_neg (by simpa using hx)]
      have hsplit := List.takeWhile_append_dropWhile
        (fun b => decide ¬ cntDesc x b) (List.insertionSort cntDesc t)
      rw [← List.filter_append, hsplit, ih, List.filter_cons,
        if_neg (by simpa using hx)]

/-- C5 (amended): `most_common(5)` returns at most five entries, in
descending count order, each carrying its true pair count (and only
pairs that actually occurred); every counter entry left out has a count
no larger than any returned entry; and entries with equal counts keep
the order in which their keys were first inserted into the counter —
not the lexicographic order of the pair keys. -/
theorem top_pairs_amended :
    ∀ baskets : List (List String),
      (topPairs 5 baskets).Sorted cntDesc ∧
      (topPairs 5 baskets).length ≤ 5 ∧
      (∀ p ∈ topPairs 5 baskets, p.2 = pairCount baskets p.1 ∧ 0 < p.2) ∧
      (∀ q ∈ counterItems baskets, q ∉ topPairs 5 baskets →
        ∀ p ∈ topPairs 5 baskets, q.2 ≤ p.2) ∧
      (∀ p q, [p, q].Sublist (topPairs 5 baskets) → p.2 = q.2 →
        [p, q].Sublist (counterItems baskets)) := by
  intro baskets
  have hspec := counterItems_spec baskets
  have hsorted : (List.insertionSort cntDesc (counterItems baskets)).Sorted cntDesc :=
    List.sorted_insertionSort cntDesc _
  have hperm := List.perm_insertionSort cntDesc (counterItems baskets)
  refine ⟨?_, ?_, ?_, ?_, ?_⟩
  · exact hsorted.sublist (List.take_sublist 5 _)
  · exact List.length_take_le 5 _
  · intro p hp
    have hmem : p ∈ counterItems baskets := hperm.mem_iff.mp (List.mem_of_mem_take hp)
    have hc := hspec.2.1 p hmem
    refine ⟨hc, ?_⟩
    rw [hc]
    exact (hspec.2.2 p.1).mp (List.mem_map_of_mem Prod.fst hmem)
  · intro q hq hnot p hp
    have hq' : q ∈ List.insertionSort cntDesc (counterItems baskets) :=
      hperm.mem_iff.mpr hq
    rw [← List.take_append_drop 5 (List.insertionSort cntDesc (counterItems baskets))]
      at hq'
    rcases List.mem_append.mp hq' with h1 | h1
    · exact absurd (show q ∈ topPairs 5 baskets from h1) hnot
    · have happ : (List.take 5 (List.insertionSort cntDesc (counterItems baskets)) ++
          List.drop 5 (List.insertionSort cntDesc (counterItems baskets))).Pairwise
            cntDesc := by
        rw [List.take_append_drop]
        exact hsorted
      exact (List.pairwise_append.mp happ).2.2 p hp q h1
  · intro p q hsub hpq
    have h1 : [p, q].Sublist (List.insertionSort cntDesc (counterItems baskets)) :=
      hsub.trans (List.take_sublist 5 _)
    have h2 := List.Sublist.filter (fun r => decide (r.2 = q.2)) h1
    rw [filter_insertionSort_cnt] at h2
    have h3 : [p, q].filter (fun r => decide (r.2 = q.2)) = [p, q] := by
      simp [List.filter_cons, hpq]
    rw [h3] at h2
    exact h2.trans (List.filter_sublist _)

/-- C5 witness: the amended theorem applied at a concrete basket table,
discharging the membership hypothesis of the count conjunct. -/
theorem top_pairs_amended_witness :
    ((("B", "C"), 1) : (String × String) × ℕ).2 =
      pairCount [["B", "C"]] (("B", "C"), 1).1 ∧
    0 < ((("B", "C"), 1) : (String × String) × ℕ).2 :=
  (top_pairs_amended [["B", "C"]]).2.2.1 (("B", "C"), 1) (by
    have hbc : (("B" : String) ≤ "C") := by
      rw [String.le_iff_toList_le]
      decide
    have hd : (["B", "C"] : List String).dedup = ["B", "C"] := by decide
    have e1 : basketPairs ["B", "C"] = [("B", "C")] := by
      rw [basketPairs, hd]
      simp [pairsOf, sortPair, hbc]
    have e3 : topPairs 5 [["B", "C"]] = [(("B", "C"), 1)] := by
      rw [topPairs, mostCommon, counterItems,
        show ([["B", "C"]].map basketPairs).flatten = [("B", "C")] from by
          rw [List.map_cons, List.map_nil, e1]
          rfl]
      rfl
    rw [e3]
    exact List.mem_singleton.mpr rfl)

/-- C5 counterexample: two pairs with equal counts are returned in
first-inserted order, not lexicographic order — the basket scan meets
`("Y","Z")` first, and `most_common` lists it before the
lexicographically smaller `("A","B")`. -/
theorem top_pairs_tie_not_lex :
    topPairs 5 [["Z", "Y"], ["A", "B"]] = [(("Y", "Z"), 1), (("A", "B"), 1)] ∧
    (toLex (("A" : String), ("B" : String)) : String ×ₗ String) < toLex ("Y", "Z") := by
  constructor
  · have hzy : ¬ (("Z" : String) ≤ "Y") := by
      rw [String.le_iff_toList_le]
      decide
    have hab : (("A" : String) ≤ "B") := by
      rw [String.le_iff_toList_le]
      decide
    have hd1 : (["Z", "Y"] : List String).dedup = ["Z", "Y"] := by decide
    have hd2 : (["A", "B"] : List String).dedup = ["A", "B"] := by decide
    have e1 : basketPairs ["Z", "Y"] = [("Y", "Z")] := by
      rw [basketPairs, hd1]
      simp [pairsOf, sortPair, hzy]
    have e2 : basketPairs ["A", "B"] = [("A", "B")] := by
      rw [basketPairs, hd2]
      simp [pairsOf, sortPair, hab]
    rw [topPairs, mostCommon, counterItems,
      show ([["Z", "Y"], ["A", "B"]].map basketPairs).flatten =
          [("Y", "Z"), ("A", "B")] from by
        rw [List.map_cons, List.map_cons, List.map_nil, e1, e2]
        rfl]
    rfl
  · rw [Prod.Lex.lt_iff]
    left
    show ("A" : String) < "Y"
    rw [String.lt_iff_toList_lt]
    decide

theorem lex_le_head_eq {α β : Type} [LinearOrder α] [LinearOrder β]
    {x y : α} {p q : β} (hle : toLex (x, p) ≤ toLex (y, q)) (hxy : x = y) : p ≤ q := by
  rcases (Prod.Lex.le_iff (x, p) (y, q)).mp hle with hlt | ⟨-, hpq⟩
  · exact absurd (hxy ▸ hlt) (lt_irrefl y)
  · exact hpq

theorem lex_le_fst {α β : Type} [LinearOrder α] [LinearOrder β]
    {x y : α} {p q : β} (hle : toLex (x, p) ≤ toLex (y, q)) : x ≤ y := by
  rcases (Prod.Lex.le_iff (x, p) (y, q)).mp hle with hlt | ⟨heq, -⟩
  · exact le_of_lt hlt
  · exact le_of_eq heq

/-- C3: for every household id, the lookup view returns exactly the
joined records (a permutation of the filtered three-way join), sorted
ascending by the six keys `(HSHD_NUM, BASKET_NUM, DATE, PRODUCT_NUM,
DEPARTMENT, COMMODITY)` with ties broken by the subsequent keys; in
particular, among records equal on the first four keys, one with
smaller `DEPARTMENT` never comes after one with larger `DEPARTMENT`. -/
theorem household_lookup_sorted :
    ∀ (h : ℤ) (house : List HouseRow) (tx : List TxRow) (prod : List ProdRow),
      (searchLookup h house tx prod).Perm (searchJoin h house tx prod) ∧
      (searchLookup h house tx prod).Sorted recLe ∧
      (searchLookup h house tx prod).Pairwise (fun u v =>
        u.1.1.hshd = v.1.1.hshd → u.1.2.basket = v.1.2.basket →
        u.1.2.date = v.1.2.date → u.1.2.pnum = v.1.2.pnum →
        optTop u.2.dept ≤ optTop v.2.dept) := by
  intro h house tx prod
  refine ⟨List.perm_insertionSort recLe _, List.sorted_insertionSort recLe _, ?_⟩
  refine List.Pairwise.imp ?_ (List.sorted_insertionSort recLe (searchJoin h house tx prod))
  intro u v huv h1 h2 h3 h4
  have hk : sortKey u ≤ sortKey v := huv
  rw [sortKey, sortKey] at hk
  have k1 := lex_le_head_eq hk (congrArg optTop h1)
  have k2 := lex_le_head_eq k1 (congrArg optTop h2)
  have k3 := lex_le_head_eq k2 (congrArg optTop h3)
  have k4 := lex_le_head_eq k3 (congrArg optTop h4)
  exact lex_le_fst k4

/-- C3 witness: the lookup-order theorem instantiated at a concrete
household with two records tying on the first four keys. -/
theorem household_lookup_sorted_witness :
    (searchLookup 10 [⟨some 10, 0⟩] [⟨some 10, some 1, some "X", some 100, 0⟩]
      [⟨some 100, some "D", some "C", 0⟩, ⟨some 100, some "A", some "C", 1⟩]).Sorted recLe :=
  (household_lookup_sorted 10 [⟨some 10, 0⟩] [⟨some 10, some 1, some "X", some 100, 0⟩]
    [⟨some 100, some "D", some "C", 0⟩, ⟨some 100, some "A", some "C", 1⟩]).2.1

theorem countKey_eq_zero_of_not_mem {β : Type} [DecidableEq β] {k : β} {l : List β}
    (h : k ∉ l) : countKey k l = 0 := by
  have hnil : l.filter (fun x => decide (x = k)) = [] :=
    List.filter_eq_nil_iff.mpr fun a ha hdec => h (of_decide_eq_true hdec ▸ ha)
  rw [countKey, hnil]
  rfl

theorem sum_map_ite_eq {β : Type} [DecidableEq β] (a : β) :
    ∀ m : List β, (m.map fun v => if a = v then 1 else 0).sum = countKey a m := by
  intro m
  induction m with
  | nil => rfl
  | cons v m ih =>
    rw [List.map_cons, List.sum_cons, ih, countKey_cons]
    by_cases h : a = v
    · rw [if_pos h, if_pos h.symm]
      omega
    · rw [if_neg h, if_neg (fun hh => h hh.symm)]
      omega

theorem sum_countKey_dedup {β : Type} [DecidableEq β] :
    ∀ l : List β, ((l.dedup).map fun v => countKey v l).sum = l.length := by
  intro l
  induction l with
  | nil => rfl
  | cons a l ih =>
    by_cases h : a ∈ l
    · rw [List.dedup_cons_of_mem h]
      have hmap : (l.dedup.map fun v => countKey v (a :: l)) =
          l.dedup.map fun v => countKey v l + if a = v then 1 else 0 :=
        List.map_congr_left fun v _ => countKey_cons v a l
      rw [hmap, List.sum_map_add, ih, sum_map_ite_eq,
        countKey_nodup a l.dedup (List.nodup_dedup l), if_pos (List.mem_dedup.mpr h)]
      simp
    · rw [List.dedup_cons_of_not_mem h, List.map_cons, List.sum_cons]
      have hmap : (l.dedup.map fun v => countKey v (a :: l)) =
          l.dedup.map fun v => countKey v l := by
        refine List.map_congr_left fun v hv => ?_
        rw [countKey_cons, if_neg (fun hh => h (by rw [hh]; exact List.mem_dedup.mp hv)),
          Nat.add_zero]
      rw [hmap, ih, countKey_cons, if_pos rfl, countKey_eq_zero_of_not_mem h]
      simp [Nat.add_comm]

theorem length_filterMap_id (col : List (Option String)) :
    (col.filterMap id).length = col.countP (fun o => o.isSome) := by
  induction col with
  | nil => rfl
  | cons o t ih =>
    cases o with
    | none => simpa [List.filterMap_cons, List.countP_cons] using ih
    | some v => simpa [List.filterMap_cons, List.countP_cons] using ih

/-- C10: the brand-preference distribution counts only rows whose
`BRAND_TYPE` is present — the per-brand counts always sum to the number
of present-valued rows, and on a table containing a missing value the
sum is strictly smaller than the number of rows. -/
theorem brand_counts_missing_excluded :
    (∀ col : List (Option String),
      ((brandCounts col).map Prod.snd).sum = col.countP (fun o => o.isSome)) ∧
    ((brandCounts [some "PRIVATE", none]).map Prod.snd).sum = 1 ∧
    1 < ([some "PRIVATE", none] : List (Option String)).length := by
  have huni : ∀ col : List (Option String),
      ((brandCounts col).map Prod.snd).sum = col.countP (fun o => o.isSome) := by
    intro col
    have hperm := (List.perm_insertionSort valDesc
      (((col.filterMap id).dedup).map fun v => (v, countKey v (col.filterMap id)))).map
        Prod.snd
    rw [brandCounts, hperm.sum_eq, List.map_map]
    have hcomp : (Prod.snd ∘ fun v => (v, countKey v (col.filterMap id))) =
        fun v => countKey v (col.filterMap id) := rfl
    rw [hcomp, sum_countKey_dedup, length_filterMap_id]
  refine ⟨huni, ?_, by decide⟩
  rw [huni [some "PRIVATE", none]]
  rfl

theorem except_bind_ok {α β : Type} (a : α) (f : α → Except String β) :
    (Except.ok a : Except String α).bind f = f a :=
  rfl

theorem except_map_ok {α β : Type} (a : α) (f : α → β) :
    (Except.ok a : Except String α).map f = Except.ok (f a) :=
  rfl

theorem coerceNumericT_pos (c : String) (t : PTable) (h : c ∈ t.map Prod.fst) :
    coerceNumericT c t = Except.ok (coerceNumeric c t) := by
  rw [coerceNumericT, if_pos h]

theorem coerceNumeric_keys (c : String) (t : PTable) :
    (coerceNumeric c t).map Prod.fst = t.map Prod.fst := by
  rw [coerceNumeric, List.map_map]
  refine List.map_congr_left fun col _ => ?_
  show Prod.fst (if col.1 = c then (col.1, col.2.map toNumericCell) else col) = col.1
  by_cases h : col.1 = c
  · rw [if_pos h]
  · rw [if_neg h]

/-- C9 counterexample: running the module-level normalization block on
a concrete state whose three tables all carry the required columns (so
every statement of lines 34–49 succeeds) leaves the transaction-table
variable pointing at the same address, but the table object at that
address has changed — the caller's original table is mutated in place,
not preserved. -/
theorem normalize_mutates_in_place :
    (moduleNormalize exState).map (fun s => s.heap 1) ≠
      Except.ok (exState.heap 1) := by
  intro h
  have hl : (moduleNormalize exState).map (fun s => s.heap 1) =
      Except.ok [("DATE", [CellV.str "1"]), ("HSHD_NUM", [CellV.num 10]),
        ("PRODUCT_NUM", [CellV.num 7])] := rfl
  rw [hl] at h
  have h2 := Except.ok.inj h
  have h3 : exState.heap 1 = exTable := rfl
  rw [h3] at h2
  exact absurd h2 (by decide)

/-- C9 (amended): a key coercion raises `KeyError` when the addressed
table lacks the column; and when the date alias resolves and each
coerced column exists (`HSHD_NUM` on the household table and on the
renamed transaction table, `PRODUCT_NUM` on the renamed transaction
table and on the brand-resolved product table), the block has in-place
update semantics, not copy-on-normalize: the three variables keep
their addresses, the heap cell of each table is overwritten with its
renamed/coerced version (so a caller holding the old reference
observes the change), and no other heap cell is touched. -/
theorem normalize_in_place_semantics :
    (∀ (c : String) (t : PTable), c ∉ t.map Prod.fst →
      coerceNumericT c t = Except.error "KeyError") ∧
    (∀ (s : PState) (tx' : PTable),
      s.houseAddr ≠ s.txAddr → s.houseAddr ≠ s.prodAddr → s.txAddr ≠ s.prodAddr →
      resolveDateAliasT (s.heap s.txAddr) = Except.ok tx' →
      "HSHD_NUM" ∈ (s.heap s.houseAddr).map Prod.fst →
      "HSHD_NUM" ∈ tx'.map Prod.fst →
      "PRODUCT_NUM" ∈ tx'.map Prod.fst →
      "PRODUCT_NUM" ∈ (resolveBrandAliasT (s.heap s.prodAddr)).map Prod.fst →
      ∃ s' : PState, moduleNormalize s = Except.ok s' ∧
        s'.houseAddr = s.houseAddr ∧ s'.txAddr = s.txAddr ∧ s'.prodAddr = s.prodAddr ∧
        s'.heap s.txAddr = coerceNumeric "PRODUCT_NUM" (coerceNumeric "HSHD_NUM" tx') ∧
        s'.heap s.houseAddr = coerceNumeric "HSHD_NUM" (s.heap s.houseAddr) ∧
        s'.heap s.prodAddr =
          coerceNumeric "PRODUCT_NUM" (resolveBrandAliasT (s.heap s.prodAddr)) ∧
        (∀ a, a ≠ s.houseAddr → a ≠ s.txAddr → a ≠ s.prodAddr →
          s'.heap a = s.heap a)) := by
  constructor
  · intro c t hc
    rw [coerceNumericT, if_neg hc]
  intro s tx' hht hhp htp hres hmemH hmemT1 hmemT2 hmemP
  have hmo : moduleNormalize s = Except.ok
      { s with heap :=
          (Function.update
            (Function.update
              (Function.update
                (Function.update
                  (Function.update (Function.update s.heap s.txAddr tx') s.prodAddr
                    (resolveBrandAliasT (s.heap s.prodAddr)))
                  s.houseAddr (coerceNumeric "HSHD_NUM" (s.heap s.houseAddr)))
                s.txAddr (coerceNumeric "HSHD_NUM" tx'))
              s.txAddr (coerceNumeric "PRODUCT_NUM" (coerceNumeric "HSHD_NUM" tx')))
            s.prodAddr
            (coerceNumeric "PRODUCT_NUM" (resolveBrandAliasT (s.heap s.prodAddr)))) } := by
    rw [moduleNormalize, hres, except_bind_ok]
    dsimp only
    simp only [Function.update_same, Function.update_noteq hht,
      Function.update_noteq (Ne.symm hht), Function.update_noteq hhp,
      Function.update_noteq (Ne.symm hhp), Function.update_noteq htp,
      Function.update_noteq (Ne.symm htp)]
    rw [coerceNumericT_pos _ _ hmemH, except_bind_ok]
    rw [coerceNumericT_pos _ _ hmemT1, except_bind_ok]
    rw [coerceNumericT_pos _ _ (by rw [coerceNumeric_keys]; exact hmemT2),
      except_bind_ok]
    rw [coerceNumericT_pos _ _ hmemP, except_map_ok]
  refine ⟨_, hmo, rfl, rfl, rfl, ?_, ?_, ?_, ?_⟩
  · simp [Function.update, htp, Ne.symm hht]
  · simp [Function.update, hht, hhp]
  · simp [Function.update, Ne.symm htp, Ne.symm hhp]
  · intro a ha hax hap
    simp [Function.update, ha, hax, hap]

/-- C9 witness: the in-place semantics applied at the concrete state,
discharging the address-distinctness, alias-resolution, and
column-existence hypotheses. -/
theorem normalize_in_place_semantics_witness :
    ∃ s' : PState, moduleNormalize exState = Except.ok s' ∧
      s'.houseAddr = exState.houseAddr ∧ s'.txAddr = exState.txAddr ∧
      s'.prodAddr = exState.prodAddr ∧
      s'.heap exState.txAddr = coerceNumeric "PRODUCT_NUM" (coerceNumeric "HSHD_NUM"
        (renameTableCol "PURCHASE_DATE" "DATE" exTable)) ∧
      s'.heap exState.houseAddr =
        coerceNumeric "HSHD_NUM" (exState.heap exState.houseAddr) ∧
      s'.heap exState.prodAddr =
        coerceNumeric "PRODUCT_NUM" (resolveBrandAliasT (exState.heap exState.prodAddr)) ∧
      (∀ a, a ≠ exState.houseAddr → a ≠ exState.txAddr → a ≠ exState.prodAddr →
        s'.heap a = exState.heap a) :=
  normalize_in_place_semantics.2 exState (renameTableCol "PURCHASE_DATE" "DATE" exTable)
    (by decide) (by decide) (by decide) rfl (by decide) (by decide) (by decide)
    (by decide)

end Retail
